import Mathlib

/-!
Verification development for the LaVolunteering pipeline: a shallow
embedding of the zip-code aggregation and boundary-matching code of
`visualize.py`, the row-extraction and incremental-loading code of
`scraper.py`, and the constants of `config.py`, together with theorems
settling the specification claims.
-/

set_option maxRecDepth 4096

namespace LaVol

/-! ## Python string primitives

Python strings are modelled as Lean `String`; the handful of string
operations the code uses (`str.strip`, `str.lower`, substring
containment via `in`, `str.startswith`) are defined over the underlying
character lists so that they evaluate by kernel reduction. -/

/-- Python regex word character (`\w`), restricted to ASCII: a letter,
a digit, or an underscore. -/
def isWordChar (c : Char) : Bool :=
  c.isAlphanum || c == '_'

/-- Python `str.strip()`: drop leading and trailing whitespace. -/
def pyStrip (s : String) : String :=
  ⟨((s.data.dropWhile Char.isWhitespace).reverse.dropWhile Char.isWhitespace).reverse⟩

/-- Python `str.lower()` (ASCII letters). -/
def pyLower (s : String) : String :=
  ⟨s.data.map Char.toLower⟩

/-- Python `needle in hay` substring containment, on character lists. -/
def listContains (needle : List Char) : List Char → Bool
  | [] => needle.isEmpty
  | c :: rest => needle.isPrefixOf (c :: rest) || listContains needle rest

/-- Python `hay.__contains__(needle)` on strings. -/
def pyContains (hay needle : String) : Bool :=
  listContains needle.data hay.data

/-- Python `s.startswith(pre)`. -/
def pyStartsWith (s pre : String) : Bool :=
  pre.data.isPrefixOf s.data

/-- Truthiness of a Python `str | None` value: falsy iff `None` or `""`. -/
def pyFalsyStr : Option String → Bool
  | none => true
  | some s => s == ""

/-! ## `visualize.py`: zip extraction (`ZIP_RE = r"\b(\d{5})\b"`, `extract_zipcode`) -/

/-- One attempt of `ZIP_RE` at the head of `l`: succeeds when the next
five characters are digits and the character after them (if any) is not
a word character (the trailing `\b`).  Returns the five digits. -/
def digits5 : List Char → Option (List Char)
  | d1 :: d2 :: d3 :: d4 :: d5 :: rest =>
    if d1.isDigit && d2.isDigit && d3.isDigit && d4.isDigit && d5.isDigit
        && (match rest with | [] => true | c :: _ => !isWordChar c) then
      some [d1, d2, d3, d4, d5]
    else
      none
  | _ => none

/-- `ZIP_RE.search`: scan left to right; at each position whose preceding
character (`prev`) is absent or not a word character (the leading `\b`,
which is a boundary here because `\d` is a word character), try `digits5`. -/
def zipSearchAux (prev : Option Char) : List Char → Option (List Char)
  | [] => none
  | c :: rest =>
    let leftBoundary := match prev with
      | none => true
      | some p => !isWordChar p
    if leftBoundary then
      match digits5 (c :: rest) with
      | some z => some z
      | none => zipSearchAux (some c) rest
    else
      zipSearchAux (some c) rest

/-- `extract_zipcode(location)`: `ZIP_RE.search(location or "")`, returning
the first standalone 5-digit run.  The argument is `Option String` because
the caller passes `row.get("location", "")`, which can be `None`. -/
def extract_zipcode (location : Option String) : Option String :=
  (zipSearchAux none (location.getD "").data).map fun l => ⟨l⟩

/-! ## `visualize.py`: CSV rows and `group_by_zip` -/

/-- A row of `opportunities.csv` as read by `csv.DictReader`: the fields
the visualization code touches.  `title` and `organization` are indexed
directly (`o["title"]`), the rest through `o.get(k, "")`, so the latter
are optional. -/
structure Row where
  title : String
  organization : String
  location : Option String
  date : Option String
  time : Option String
  opportunity_type : Option String
  opportunity_url : Option String
deriving DecidableEq, Repr

/-- `by_zip.setdefault(zc, []).append(row)` on an insertion-ordered
association list: append to the existing bucket, or add a new bucket at
the end. -/
def insertZip (m : List (String × List Row)) (z : String) (r : Row) :
    List (String × List Row) :=
  match m with
  | [] => [(z, [r])]
  | (k, l) :: rest =>
    if k = z then (k, l ++ [r]) :: rest else (k, l) :: insertZip rest z r

/-- The loop body of `group_by_zip`, threading the accumulator
`(by_zip, virtual)` through the rows. -/
def group_by_zip_aux : List Row → List (String × List Row) × List Row →
    List (String × List Row) × List Row
  | [], acc => acc
  | r :: rest, (m, v) =>
    match extract_zipcode r.location with
    | some z => group_by_zip_aux rest (insertZip m z r, v)
    | none => group_by_zip_aux rest (m, v ++ [r])

/-- `group_by_zip`: partition the rows into zip buckets and the virtual
list.  The CSV reading is I/O; the function is modelled on the parsed
row sequence. -/
def group_by_zip (rows : List Row) : List (String × List Row) × List Row :=
  group_by_zip_aux rows ([], [])

/-- All rows held in the zip buckets, in bucket order. -/
def bucketRows (m : List (String × List Row)) : List Row :=
  m.flatMap (fun p => p.2)

/-! ## `visualize.py`: boundary features and `build_choropleth_geojson` -/

/-- A JSON property value as the code distinguishes them: a string
(`isinstance(val, str)` passes) or a non-string value carrying its
Python `str()` rendering. -/
inductive PVal where
  | pstr (s : String)
  | pother (reprStr : String)
deriving DecidableEq, Repr

/-- Python `str(v)`. -/
def pyStr : PVal → String
  | .pstr s => s
  | .pother r => r

/-- A GeoJSON boundary feature: an opaque geometry plus its
`properties` mapping in insertion order. -/
structure BFeature where
  geometry : String
  properties : List (String × PVal)
deriving DecidableEq, Repr

/-- `props.get(key)`: first-match lookup (dict keys are unique). -/
def pget (props : List (String × PVal)) (key : String) : Option PVal :=
  (props.find? (fun kv => kv.1 == key)).map (fun kv => kv.2)

/-- `ZIP_RE.fullmatch(val)`: the whole string is exactly five digits
(the surrounding `\b` are automatic at the string ends). -/
def fullmatchZip (s : String) : Bool :=
  s.data.length == 5 && s.data.all Char.isDigit

/-- Whether a property value passes `isinstance(val, str) and
ZIP_RE.fullmatch(val)`. -/
def pvalIsZip : PVal → Bool
  | .pstr s => fullmatchZip s
  | .pother _ => false

/-- The prioritized candidate key names of `_find_zip_property`. -/
def ZIP_KEY_CANDIDATES : List String :=
  ["ZCTA5CE10", "ZCTA5CE20", "ZIP", "ZIPCODE", "zip", "GEOID10", "GEOID20"]

/-- `_find_zip_property(feature)`: try the prioritized candidate names
(`props.get(key, "")`, which fails `fullmatch` for a missing key), then
scan all properties in order for the first string value that fully
matches five digits. -/
def find_zip_property (feat : BFeature) : Option String :=
  let props := feat.properties
  match ZIP_KEY_CANDIDATES.find? (fun key =>
      match pget props key with
      | some v => pvalIsZip v
      | none => false) with
  | some key => some key
  | none => (props.find? (fun kv => pvalIsZip kv.2)).map (fun kv => kv.1)

/-- The key-detection loop of `build_choropleth_geojson`: for each of the
first five features, `zip_key = _find_zip_property(feat)` and break when
`zip_key` is truthy.  A detected key equal to `""` is falsy in Python, so
the loop keeps going and a trailing falsy value is treated as not found. -/
def detectLoop : List BFeature → Option String
  | [] => none
  | f :: rest =>
    match find_zip_property f with
    | some k => if k = "" then detectLoop rest else some k
    | none => detectLoop rest

/-- Zip-key detection over `boundaries["features"][:5]`. -/
def detectZipKey (feats : List BFeature) : Option String :=
  detectLoop (feats.take 5)

/-- The display-relevant projection of a record used in joined features
(`title`, `organization`, `date`, `time`, `type`, `url`). -/
structure Summary where
  title : String
  organization : String
  date : String
  time : String
  type : String
  url : String
deriving DecidableEq, Repr

/-- The compression of one record to its display fields. -/
def summarize (o : Row) : Summary :=
  { title := o.title
    organization := o.organization
    date := o.date.getD ""
    time := o.time.getD ""
    type := o.opportunity_type.getD ""
    url := o.opportunity_url.getD "" }

/-- A joined output feature: geometry carried over plus the injected
`zipcode`, `count`, `opportunities` properties. -/
structure OutFeature where
  geometry : String
  zipcode : String
  count : Nat
  opportunities : List Summary
deriving DecidableEq, Repr

/-- Dict lookup `by_zip[zc]` / membership `zc in by_zip` on the
insertion-ordered association list. -/
def lookupZip (m : List (String × List Row)) (zc : String) : Option (List Row) :=
  (m.find? (fun p => p.1 == zc)).map (fun p => p.2)

/-- The zip value the join resolves for one boundary feature:
`str(feature["properties"].get(zip_key, ""))`. -/
def resolveZip (feat : BFeature) (zipKey : String) : String :=
  match pget feat.properties zipKey with
  | some v => pyStr v
  | none => ""

/-- The per-feature join step: emit a joined feature when the resolved
zip is a key of the aggregation, nothing otherwise. -/
def joinFeature (by_zip : List (String × List Row)) (zipKey : String)
    (feat : BFeature) : Option OutFeature :=
  let zc := resolveZip feat zipKey
  match lookupZip by_zip zc with
  | some opps =>
    some { geometry := feat.geometry
           zipcode := zc
           count := opps.length
           opportunities := opps.map summarize }
  | none => none

/-- `build_choropleth_geojson(by_zip, boundaries)`: detect the zip key
over the first five features, raising `ValueError` (modelled as `.error`
carrying the sample key list of the first feature) when none is found;
otherwise join every boundary feature whose resolved zip is aggregated.
Unmatched aggregation zips are only printed, never an error. -/
def build_choropleth_geojson (by_zip : List (String × List Row))
    (boundaries : List BFeature) : Except (List String) (List OutFeature) :=
  match detectZipKey boundaries with
  | none =>
    .error (match boundaries with
      | [] => []
      | f :: _ => f.properties.map (fun kv => kv.1))
  | some zipKey => .ok (boundaries.filterMap (joinFeature by_zip zipKey))

/-! ## `visualize.py`: `generate_html` summary statistics -/

/-- Python `max(iterable, default=d)`. -/
def pyMaxDefault (l : List Nat) (d : Nat) : Nat :=
  match l with
  | [] => d
  | x :: xs => xs.foldl max x

/-- The four summary scalars `generate_html` computes and substitutes
into the HTML template (the template text itself is presentation). -/
structure HtmlStats where
  total_mapped : Nat
  total_zips : Nat
  virtual_count : Nat
  max_count : Nat
deriving DecidableEq, Repr

/-- The statistics part of `generate_html(geojson, virtual_opps)`:
`total_mapped = sum of counts`, `total_zips = len(features)`,
`virtual_count = len(virtual_opps)`, and
`max_count = max(counts, default=1)`. -/
def generate_html_stats (features : List OutFeature) (virtual_opps : List Row) :
    HtmlStats :=
  { total_mapped := (features.map (fun f => f.count)).sum
    total_zips := features.length
    virtual_count := virtual_opps.length
    max_count := pyMaxDefault (features.map (fun f => f.count)) 1 }

/-! ## `config.py` constants used by the scraper -/

def BASE_URL : String := "https://volunteer.laworks.com"

def MAX_LOAD_MORE_CLICKS : Nat := 20

/-- `OPP_TYPE_CLASSES`, an insertion-ordered mapping from CSS-class
markers to opportunity type names. -/
def OPP_TYPE_CLASSES : List (String × String) :=
  [("blue-key", "Volunteer Opportunity"),
   ("green-key", "Special Event"),
   ("light-gray-key", "Already Filled"),
   ("yellow-key", "Training")]

/-! ## `scraper.py`: the DOM row model and `_extract_row`

A result row's DOM is modelled by the observations `_extract_row` can
make of it: the first anchor of the opportunity and organization cells
(absent when the locator matches nothing, in which case the awaited
`inner_text` raises and extraction of the row fails), the raw cell
texts, and the three optional sub-elements of the time cell. -/

/-- An `<a>` element: its `inner_text`, `href` attribute and `class`
attribute (`get_attribute` returns `None` for a missing attribute). -/
structure Anchor where
  text : String
  href : Option String
  cls : Option String
deriving DecidableEq, Repr

/-- The time cell: its `data-order` attribute, the inner texts of the
optional `.date-row` / `.time-row` / `.duration` sub-elements, and its
own raw `inner_text`. -/
structure TimeCell where
  data_order : Option String
  date_el : Option String
  time_el : Option String
  dur_el : Option String
  raw : String
deriving DecidableEq, Repr

/-- One result row as observed by `_extract_row`. -/
structure RowDom where
  opp_link : Option Anchor
  org_link : Option Anchor
  where_text : String
  time_cell : TimeCell
  dist_text : String
deriving DecidableEq, Repr

/-- The `Opportunity` dataclass of `models.py` (the wall-clock
`scraped_at` field is omitted as I/O). -/
structure Opportunity where
  title : String
  organization : String
  location : String
  date : Option String
  time : Option String
  duration : Option String
  datetime_iso : Option String
  distance : String
  opportunity_type : String
  opportunity_url : Option String
  opportunity_id : Option String
  organization_url : Option String
deriving DecidableEq, Repr

/-- `_extract_id_from_href`'s regex scan: find the leftmost occurrence
of `/opportunity/` that is followed by at least one ASCII alphanumeric
character, and return the maximal alphanumeric run after it. -/
def idScan : List Char → Option (List Char)
  | [] => none
  | c :: rest =>
    if "/opportunity/".data.isPrefixOf (c :: rest) then
      let run := ((c :: rest).drop 13).takeWhile Char.isAlphanum
      if run.isEmpty then idScan rest else some run
    else
      idScan rest

/-- `_extract_id_from_href(href)`: `None` for a falsy href, else the
first `/opportunity/<alphanumeric>` capture. -/
def extract_id_from_href : Option String → Option String
  | none => none
  | some h => (idScan h.data).map fun l => ⟨l⟩

/-- The href resolution of `_extract_row`:
`f"{BASE_URL}{href}" if href and href.startswith("/") else href`. -/
def resolveHref : Option String → Option String
  | none => none
  | some h =>
    some (if h ≠ "" ∧ pyStartsWith h "/" then BASE_URL ++ h else h)

/-- The class-marker loop of `_extract_row`: the first marker of
`OPP_TYPE_CLASSES` that occurs as a substring of the link's class
attribute wins; the default is `"Volunteer Opportunity"`. -/
def classifyType (linkClass : String) : String :=
  match OPP_TYPE_CLASSES.find? (fun p => pyContains linkClass p.1) with
  | some p => p.2
  | none => "Volunteer Opportunity"

/-- `_extract_row(row)`: `none` models the raise on a missing required
anchor (awaiting `inner_text` on an empty locator); otherwise the
constructed `Opportunity`. -/
def extract_row (r : RowDom) : Option Opportunity :=
  match r.opp_link with
  | none => none
  | some oppL =>
    match r.org_link with
    | none => none
    | some orgL =>
      let date0 : Option String := r.time_cell.date_el.map pyStrip
      let date_str : Option String :=
        if pyFalsyStr date0 then
          if pyContains (pyLower (pyStrip r.time_cell.raw)) "ongoing" then
            some "Ongoing"
          else date0
        else date0
      some
        { title := pyStrip oppL.text
          organization := pyStrip orgL.text
          location := pyStrip r.where_text
          date := date_str
          time := r.time_cell.time_el.map pyStrip
          duration := r.time_cell.dur_el.map pyStrip
          datetime_iso := r.time_cell.data_order
          distance := pyStrip r.dist_text
          opportunity_type := classifyType (oppL.cls.getD "")
          opportunity_url := resolveHref oppL.href
          opportunity_id := extract_id_from_href oppL.href
          organization_url := resolveHref orgL.href }

/-! ## `scraper.py`: `_load_all_results` -/

/-- The non-error terminal states of the load-more loop: the control is
absent or not visible (`fully loaded`), the row count did not grow
within the wait bound (`no growth`), or the click cap was exhausted. -/
inductive ExitState where
  | fullyLoaded
  | noGrowth
  | capReached
deriving DecidableEq, Repr

/-- What one loop iteration observes of the page: whether the load-more
control exists and is visible, and whether the row count grows past the
pre-click count within `LOAD_MORE_WAIT_MS`. -/
structure IterObs where
  buttonVisible : Bool
  growth : Bool

/-- The `for click_num in range(1, MAX_LOAD_MORE_CLICKS + 1)` loop:
`clicks` counts performed expansion attempts, `fuel` the remaining
iterations.  A visible control is clicked; a failed growth wait breaks
(after the click); otherwise the loop continues. -/
def loadLoop (obs : Nat → IterObs) : Nat → Nat → Nat × ExitState
  | clicks, 0 => (clicks, ExitState.capReached)
  | clicks, fuel + 1 =>
    let o := obs clicks
    if !o.buttonVisible then (clicks, ExitState.fullyLoaded)
    else if !o.growth then (clicks + 1, ExitState.noGrowth)
    else loadLoop obs (clicks + 1) fuel

/-- `_load_all_results(page)`, abstracted over the page's behavior
`obs` (iteration index ↦ observations): the number of clicks performed
and the terminal state. -/
def load_all_results (obs : Nat → IterObs) : Nat × ExitState :=
  loadLoop obs 0 MAX_LOAD_MORE_CLICKS

/-! ## Specification-side definitions -/

/-- A standalone 5-digit run inside `l` (the specification's reading of
`\b(\d{5})\b`): five digit characters bounded on the left by the string
start or a non-word character and on the right by the string end or a
non-word character. -/
def standaloneRun (l : List Char) : Prop :=
  ∃ pre ds post, l = pre ++ ds ++ post ∧ ds.length = 5 ∧
    (∀ c ∈ ds, c.isDigit = true) ∧
    (pre = [] ∨ ∃ p, pre.getLast? = some p ∧ isWordChar p = false) ∧
    (post = [] ∨ ∃ q, post.head? = some q ∧ isWordChar q = false)

/-- Modelled from the spec's words (for the refinement comparison in the
URL claim): a URL is absolute when it carries a scheme, i.e. a `:`
occurs before the first `/`. -/
def isAbsoluteUrl_spec (s : String) : Bool :=
  (s.data.takeWhile (fun c => c != '/')).contains ':'

/-- The left-boundary invariant carried through `zipSearchAux`: the
character preceding the current position (the last of `pre`, or `prev`
when `pre` is empty) is absent or not a word character. -/
def leftOK (prev : Option Char) (pre : List Char) : Prop :=
  ∀ p, (pre.getLast?.or prev) = some p → isWordChar p = false

/-! ## Lemmas: the aggregation partition -/

theorem bucketRows_cons (p : String × List Row) (m : List (String × List Row)) :
    bucketRows (p :: m) = p.2 ++ bucketRows m := by
  simp [bucketRows]

theorem bucketRows_insertZip (m : List (String × List Row)) (z : String) (r : Row) :
    (bucketRows (insertZip m z r)).Perm (r :: bucketRows m) := by
  induction m with
  | nil => simp [insertZip, bucketRows]
  | cons q rest ih =>
    obtain ⟨k, l⟩ := q
    by_cases hk : k = z
    · rw [insertZip, if_pos hk, bucketRows_cons, bucketRows_cons]
      have : (l ++ [r]) ++ bucketRows rest = l ++ (r :: bucketRows rest) := by simp
      rw [this]
      exact List.perm_middle
    · rw [insertZip, if_neg hk, bucketRows_cons, bucketRows_cons]
      exact (List.Perm.append_left l ih).trans List.perm_middle

theorem group_by_zip_aux_perm (rows : List Row) :
    ∀ m v,
      (bucketRows (group_by_zip_aux rows (m, v)).1 ++
        (group_by_zip_aux rows (m, v)).2).Perm ((bucketRows m ++ v) ++ rows) := by
  induction rows with
  | nil => intro m v; simp [group_by_zip_aux]
  | cons r rest ih =>
    intro m v
    cases hz : extract_zipcode r.location with
    | some z =>
      simp only [group_by_zip_aux, hz]
      refine (ih (insertZip m z r) v).trans ?_
      refine (List.Perm.append_right rest
        (List.Perm.append_right v (bucketRows_insertZip m z r))).trans ?_
      exact List.perm_middle.symm
    | none =>
      simp only [group_by_zip_aux, hz]
      refine (ih m (v ++ [r])).trans ?_
      simp

theorem group_by_zip_aux_virtual (rows : List Row) :
    ∀ m v, (group_by_zip_aux rows (m, v)).2 =
      v ++ rows.filter (fun r => (extract_zipcode r.location).isNone) := by
  induction rows with
  | nil => intro m v; simp [group_by_zip_aux]
  | cons r rest ih =>
    intro m v
    cases hz : extract_zipcode r.location with
    | some z => simp [group_by_zip_aux, hz, ih]
    | none => simp [group_by_zip_aux, hz, ih]

theorem insertZip_good (m : List (String × List Row)) (z : String) (r : Row)
    (hm : ∀ p ∈ m, ∀ x ∈ p.2, extract_zipcode x.location = some p.1)
    (hr : extract_zipcode r.location = some z) :
    ∀ p ∈ insertZip m z r, ∀ x ∈ p.2, extract_zipcode x.location = some p.1 := by
  induction m with
  | nil =>
    intro p hp x hx
    simp only [insertZip, List.mem_singleton] at hp
    subst hp
    simp only [List.mem_singleton] at hx
    subst hx
    exact hr
  | cons q rest ih =>
    obtain ⟨k, l⟩ := q
    by_cases hk : k = z
    · subst hk
      rw [insertZip, if_pos rfl]
      intro p hp x hx
      rcases List.mem_cons.mp hp with h | h
      · subst h
        rcases List.mem_append.mp hx with h' | h'
        · exact hm (k, l) (List.mem_cons_self _ _) x h'
        · rw [List.mem_singleton] at h'
          subst h'
          exact hr
      · exact hm p (List.mem_cons_of_mem _ h) x hx
    · rw [insertZip, if_neg hk]
      intro p hp x hx
      rcases List.mem_cons.mp hp with h | h
      · subst h
        exact hm (k, l) (List.mem_cons_self _ _) x hx
      · exact ih (fun q hq => hm q (List.mem_cons_of_mem _ hq)) p h x hx

theorem group_by_zip_aux_good (rows : List Row) :
    ∀ m v, (∀ p ∈ m, ∀ x ∈ p.2, extract_zipcode x.location = some p.1) →
      ∀ p ∈ (group_by_zip_aux rows (m, v)).1, ∀ x ∈ p.2,
        extract_zipcode x.location = some p.1 := by
  induction rows with
  | nil => intro m v hm; simpa [group_by_zip_aux] using hm
  | cons r rest ih =>
    intro m v hm
    cases hz : extract_zipcode r.location with
    | some z =>
      simp only [group_by_zip_aux, hz]
      exact ih (insertZip m z r) v (insertZip_good m z r hm hz)
    | none =>
      simp only [group_by_zip_aux, hz]
      exact ih m (v ++ [r]) hm

/-! ## Sample data for claim witnesses -/

/-- A record whose location carries the zip 90065. -/
def rowA : Row :=
  ⟨"Beach Cleanup", "Heal the Bay", some "123 Main St, Los Angeles, CA 90065",
    none, none, some "Volunteer Opportunity", some "https://x.org/1"⟩

/-- A record without an extractable zip code. -/
def rowB : Row :=
  ⟨"Tutoring", "School on Wheels", some "Remote", none, none, none, none⟩

/-- A record whose location field is missing entirely. -/
def rowC : Row :=
  ⟨"Food Bank", "LA Food Bank", none, none, none, none, none⟩

/-! ## Claim C1 -/

/-- Claim C1: `group_by_zip` (with `extract_zipcode`) partitions any
input row sequence: the multiset union of all zip buckets and the
virtual list is the input (no row duplicated or dropped), every row in
a bucket extracts exactly that bucket's zip key, and every row in the
virtual list extracts no zip. -/
theorem group_by_zip_partitions (rows : List Row) :
    (bucketRows (group_by_zip rows).1 ++ (group_by_zip rows).2).Perm rows
    ∧ (∀ p ∈ (group_by_zip rows).1, ∀ r ∈ p.2,
        extract_zipcode r.location = some p.1)
    ∧ (∀ r ∈ (group_by_zip rows).2, extract_zipcode r.location = none) := by
  refine ⟨?_, ?_, ?_⟩
  · have h := group_by_zip_aux_perm rows [] []
    simpa [group_by_zip, bucketRows] using h
  · exact group_by_zip_aux_good rows [] [] (by intro p hp; simp at hp)
  · intro r hr
    rw [group_by_zip, group_by_zip_aux_virtual rows [] []] at hr
    simp only [List.nil_append, List.mem_filter] at hr
    exact Option.isNone_iff_eq_none.mp hr.2

/-- Witness for C1 at a concrete two-row input: the buckets and virtual
list together are a permutation of the input, and the virtual row
extracts no zip. -/
theorem group_by_zip_partitions_witness :
    (bucketRows (group_by_zip [rowA, rowB]).1 ++
      (group_by_zip [rowA, rowB]).2).Perm [rowA, rowB]
    ∧ extract_zipcode rowB.location = none :=
  ⟨(group_by_zip_partitions [rowA, rowB]).1,
    (group_by_zip_partitions [rowA, rowB]).2.2 rowB (by decide)⟩

/-! ## Lemmas: soundness of the zip-code search -/

theorem digits5_sound (l z : List Char) (h : digits5 l = some z) :
    ∃ post, l = z ++ post ∧ z.length = 5 ∧ (∀ c ∈ z, c.isDigit = true) ∧
      (post = [] ∨ ∃ q, post.head? = some q ∧ isWordChar q = false) := by
  rcases l with _ | ⟨d1, _ | ⟨d2, _ | ⟨d3, _ | ⟨d4, _ | ⟨d5, rest⟩⟩⟩⟩⟩
  · simp [digits5] at h
  · simp [digits5] at h
  · simp [digits5] at h
  · simp [digits5] at h
  · simp [digits5] at h
  · simp only [digits5] at h
    split at h
    case isTrue hcond =>
      injection h with hz
      subst hz
      simp only [Bool.and_eq_true] at hcond
      obtain ⟨⟨⟨⟨⟨h1, h2⟩, h3⟩, h4⟩, h5⟩, h6⟩ := hcond
      refine ⟨rest, rfl, rfl, ?_, ?_⟩
      · intro c hc
        simp only [List.mem_cons, List.not_mem_nil, or_false] at hc
        rcases hc with rfl | rfl | rfl | rfl | rfl <;> assumption
      · cases rest with
        | nil => exact Or.inl rfl
        | cons q rest' =>
          right
          exact ⟨q, rfl, by simpa using h6⟩
    case isFalse => simp at h

theorem leftOK_nil_of_boundary (prev : Option Char)
    (h : (match prev with | none => true | some p => !isWordChar p) = true) :
    leftOK prev [] := by
  intro p hp
  cases prev with
  | none => simp at hp
  | some c =>
    simp only [List.getLast?_nil, Option.or] at hp
    injection hp with hc
    subst hc
    simpa using h

theorem leftOK_cons (prev : Option Char) (c : Char) (pre : List Char)
    (h : leftOK (some c) pre) : leftOK prev (c :: pre) := by
  intro p hp
  cases pre with
  | nil =>
    apply h
    simpa using hp
  | cons p0 pre' =>
    rcases hl : (p0 :: pre').getLast? with _ | q
    · exact absurd hl (by simp)
    · rw [List.getLast?_cons_cons, hl] at hp
      apply h
      rw [hl]
      exact hp

theorem zipSearchAux_sound (l : List Char) :
    ∀ (prev : Option Char) (z : List Char),
      zipSearchAux prev l = some z →
      ∃ pre ds post, l = pre ++ ds ++ post ∧ ds.length = 5 ∧
        (∀ c ∈ ds, c.isDigit = true) ∧ leftOK prev pre ∧
        (post = [] ∨ ∃ q, post.head? = some q ∧ isWordChar q = false) := by
  induction l with
  | nil => intro prev z h; simp [zipSearchAux] at h
  | cons c rest ih =>
    intro prev z h
    simp only [zipSearchAux] at h
    split at h
    · rename_i hb
      cases hd : digits5 (c :: rest) with
      | some w =>
        rw [hd] at h
        injection h with hw
        subst hw
        obtain ⟨post, hl, h5, hdig, hr⟩ := digits5_sound _ _ hd
        exact ⟨[], w, post, by simpa using hl, h5, hdig,
          leftOK_nil_of_boundary prev hb, hr⟩
      | none =>
        rw [hd] at h
        obtain ⟨pre, ds, post, hl, h5, hdig, hL, hR⟩ := ih (some c) z h
        exact ⟨c :: pre, ds, post, by simp [hl], h5, hdig,
          leftOK_cons prev c pre hL, hR⟩
    · obtain ⟨pre, ds, post, hl, h5, hdig, hL, hR⟩ := ih (some c) z h
      exact ⟨c :: pre, ds, post, by simp [hl], h5, hdig,
        leftOK_cons prev c pre hL, hR⟩

/-! ## Claim C10 -/

/-- Claim C10: `extract_zipcode` is total over `None` and arbitrary
strings — it returns `None` for `None` and for any string containing no
standalone 5-digit run — and `group_by_zip` routes every row whose
location field is missing or empty to the virtual list. -/
theorem extract_zipcode_total :
    extract_zipcode none = none
    ∧ (∀ s : String, ¬ standaloneRun s.data → extract_zipcode (some s) = none)
    ∧ (∀ rows : List Row, ∀ r ∈ rows,
        (r.location = none ∨ r.location = some "") →
        r ∈ (group_by_zip rows).2) := by
  refine ⟨rfl, ?_, ?_⟩
  · intro s hns
    cases hw : zipSearchAux none s.data with
    | none => simp [extract_zipcode, hw]
    | some w =>
      exfalso
      apply hns
      obtain ⟨pre, ds, post, hl, h5, hdig, hL, hR⟩ :=
        zipSearchAux_sound s.data none w hw
      refine ⟨pre, ds, post, hl, h5, hdig, ?_, hR⟩
      cases pre with
      | nil => exact Or.inl rfl
      | cons p0 pre' =>
        right
        have hsome : ((p0 :: pre').getLast?).isSome := by
          rw [List.getLast?_isSome]
          simp
        obtain ⟨p, hp⟩ := Option.isSome_iff_exists.mp hsome
        exact ⟨p, hp, hL p (by rw [hp]; rfl)⟩
  · intro rows r hr hloc
    have hz : extract_zipcode r.location = none := by
      rcases hloc with h | h <;> rw [h] <;> rfl
    rw [group_by_zip, group_by_zip_aux_virtual rows [] []]
    simp only [List.nil_append, List.mem_filter]
    exact ⟨hr, by simp [hz]⟩

/-- Witness for C10: `extract_zipcode` of `None` is `None`, and a
concrete row with a missing location lands in the virtual list. -/
theorem extract_zipcode_total_witness :
    extract_zipcode none = none ∧ rowC ∈ (group_by_zip [rowA, rowC]).2 :=
  ⟨extract_zipcode_total.1,
    extract_zipcode_total.2.2 [rowA, rowC] rowC (by decide) (Or.inl rfl)⟩

/-! ## Lemmas: the boundary join -/

theorem joinFeature_eq (m : List (String × List Row)) (k : String) (f : BFeature) :
    joinFeature m k f = (lookupZip m (resolveZip f k)).map
      (fun opps => ⟨f.geometry, resolveZip f k, opps.length, opps.map summarize⟩) := by
  simp only [joinFeature]
  cases h : lookupZip m (resolveZip f k) <;> simp [h]

theorem build_ok (m : List (String × List Row)) (B : List BFeature) (k : String)
    (h : detectZipKey B = some k) :
    build_choropleth_geojson m B = .ok (B.filterMap (joinFeature m k)) := by
  unfold build_choropleth_geojson
  rw [h]

theorem build_error_iff (m : List (String × List Row)) (B : List BFeature) :
    (∃ e, build_choropleth_geojson m B = .error e) ↔ detectZipKey B = none := by
  unfold build_choropleth_geojson
  cases detectZipKey B <;> simp

theorem detectLoop_eq_none_iff (l : List BFeature) :
    detectLoop l = none ↔
      ∀ f ∈ l, find_zip_property f = none ∨ find_zip_property f = some "" := by
  induction l with
  | nil => simp [detectLoop]
  | cons f rest ih =>
    rw [detectLoop]
    cases hf : find_zip_property f with
    | none => simp [hf, ih]
    | some k =>
      by_cases hk : k = ""
      · subst hk
        simp [hf, ih]
      · simp [hf, hk, ih]

theorem filterMap_join (m : List (String × List Row)) (k : String) :
    ∀ B : List BFeature, B.filterMap (joinFeature m k) =
      (B.filter (fun f => (lookupZip m (resolveZip f k)).isSome)).map
        (fun f =>
          ⟨f.geometry, resolveZip f k,
            ((lookupZip m (resolveZip f k)).getD []).length,
            ((lookupZip m (resolveZip f k)).getD []).map summarize⟩) := by
  intro B
  induction B with
  | nil => rfl
  | cons f rest ih =>
    rw [List.filterMap_cons, List.filter_cons]
    cases hf : lookupZip m (resolveZip f k) with
    | none => simp [joinFeature_eq, hf, ih]
    | some opps => simp [joinFeature_eq, hf, ih]

theorem length_filterMap_countP {α β : Type} (g : α → Option β) (l : List α) :
    (l.filterMap g).length = l.countP (fun a => (g a).isSome) := by
  induction l with
  | nil => rfl
  | cons x xs ih =>
    cases hx : g x <;> simp [List.filterMap_cons, hx, List.countP_cons, ih]

theorem lookupZip_mem (m : List (String × List Row)) (zc : String)
    (opps : List Row) (h : lookupZip m zc = some opps) :
    ∃ p ∈ m, p.1 = zc ∧ p.2 = opps := by
  unfold lookupZip at h
  cases hf : m.find? (fun p => p.1 == zc) with
  | none => rw [hf] at h; simp at h
  | some p =>
    rw [hf] at h
    refine ⟨p, List.mem_of_find?_eq_some hf, ?_, ?_⟩
    · have := List.find?_some hf
      exact beq_iff_eq.mp this
    · simpa using h

/-- A member of the joined output arose from a boundary feature whose
resolved zip is aggregated, carrying that bucket's data. -/
theorem mem_join_out (m : List (String × List Row)) (k : String)
    (B : List BFeature) (f : OutFeature)
    (hf : f ∈ B.filterMap (joinFeature m k)) :
    ∃ b ∈ B, ∃ opps, lookupZip m (resolveZip b k) = some opps ∧
      f = ⟨b.geometry, resolveZip b k, opps.length, opps.map summarize⟩ := by
  obtain ⟨b, hb, hjoin⟩ := List.mem_filterMap.mp hf
  rw [joinFeature_eq] at hjoin
  cases hl : lookupZip m (resolveZip b k) with
  | none => rw [hl] at hjoin; simp at hjoin
  | some opps =>
    rw [hl] at hjoin
    simp only [Option.map] at hjoin
    injection hjoin with hjoin
    exact ⟨b, hb, opps, hl, hjoin.symm⟩

theorem insertZip_ne_nil (m : List (String × List Row)) (z : String) (r : Row)
    (hm : ∀ p ∈ m, p.2 ≠ []) : ∀ p ∈ insertZip m z r, p.2 ≠ [] := by
  induction m with
  | nil =>
    intro p hp
    simp only [insertZip, List.mem_singleton] at hp
    subst hp
    simp
  | cons q rest ih =>
    obtain ⟨k, l⟩ := q
    by_cases hk : k = z
    · rw [insertZip, if_pos hk]
      intro p hp
      rcases List.mem_cons.mp hp with h | h
      · subst h; simp
      · exact hm p (List.mem_cons_of_mem _ h)
    · rw [insertZip, if_neg hk]
      intro p hp
      rcases List.mem_cons.mp hp with h | h
      · subst h
        exact hm (k, l) (List.mem_cons_self _ _)
      · exact ih (fun q hq => hm q (List.mem_cons_of_mem _ hq)) p h

theorem group_by_zip_aux_ne_nil (rows : List Row) :
    ∀ m v, (∀ p ∈ m, p.2 ≠ []) →
      ∀ p ∈ (group_by_zip_aux rows (m, v)).1, p.2 ≠ [] := by
  induction rows with
  | nil => intro m v hm; simpa [group_by_zip_aux] using hm
  | cons r rest ih =>
    intro m v hm
    cases hz : extract_zipcode r.location with
    | some z =>
      simp only [group_by_zip_aux, hz]
      exact ih (insertZip m z r) v (insertZip_ne_nil m z r hm)
    | none =>
      simp only [group_by_zip_aux, hz]
      exact ih m (v ++ [r]) hm

/-! ## Claim C2 -/

/-- Claim C2: when zip-key detection succeeds with key `k`,
`build_choropleth_geojson` returns (never fails on unmatched
aggregation zips) exactly one joined feature per boundary feature whose
resolved zip is an aggregation key — geometry unchanged, `zipcode` the
resolved zip, `count` the bucket size, `opportunities` the display
summaries — and no feature for boundary features whose zip is absent;
when every aggregation bucket is non-empty every emitted count is at
least 1, and the aggregations `group_by_zip` produces only ever have
non-empty buckets. -/
theorem build_choropleth_join (by_zip : List (String × List Row))
    (boundaries : List BFeature) (k : String)
    (hdet : detectZipKey boundaries = some k) :
    build_choropleth_geojson by_zip boundaries =
      .ok ((boundaries.filter
          (fun f => (lookupZip by_zip (resolveZip f k)).isSome)).map
        (fun f =>
          ⟨f.geometry, resolveZip f k,
            ((lookupZip by_zip (resolveZip f k)).getD []).length,
            ((lookupZip by_zip (resolveZip f k)).getD []).map summarize⟩))
    ∧ (∀ out, build_choropleth_geojson by_zip boundaries = .ok out →
        (∀ p ∈ by_zip, p.2 ≠ []) → ∀ f ∈ out, 1 ≤ f.count)
    ∧ (∀ rows : List Row, ∀ p ∈ (group_by_zip rows).1, p.2 ≠ []) := by
  refine ⟨?_, ?_, ?_⟩
  · rw [build_ok by_zip boundaries k hdet, filterMap_join]
  swap
  · intro rows
    exact group_by_zip_aux_ne_nil rows [] [] (by intro p hp; simp at hp)
  · intro out hout hne f hf
    rw [build_ok by_zip boundaries k hdet] at hout
    injection hout with hout
    subst hout
    obtain ⟨b, _, opps, hl, hfeq⟩ := mem_join_out by_zip k boundaries f hf
    obtain ⟨p, hp, _, hp2⟩ := lookupZip_mem by_zip (resolveZip b k) opps hl
    have : opps ≠ [] := hp2 ▸ hne p hp
    subst hfeq
    exact List.length_pos.mpr this

/-- The spec's worked example for C2: boundaries for 90001 and 90002,
aggregation only for 90001 with two records. -/
def M2exmpl : List (String × List Row) := [("90001", [rowA, rowB])]

def B2exmpl : List BFeature :=
  [⟨"gA", [("ZIP", PVal.pstr "90001")]⟩, ⟨"gB", [("ZIP", PVal.pstr "90002")]⟩]

/-- Witness for C2 at the spec's example: exactly one joined feature,
for 90001, with count 2 and the two summaries; none for 90002. -/
theorem build_choropleth_join_witness :
    build_choropleth_geojson M2exmpl B2exmpl =
      Except.ok [⟨"gA", "90001", 2, [summarize rowA, summarize rowB]⟩] := by
  rw [(build_choropleth_join M2exmpl B2exmpl "ZIP" (by decide)).1]
  rfl

/-! ## Claim C6 (corrected) -/

/-- A boundary feature whose only zip-bearing property key is the empty
string: `_find_zip_property` selects it, but Python's truthiness check
in `build_choropleth_geojson` treats it as not found. -/
def F0 : BFeature := ⟨"g0", [("", PVal.pstr "90001")]⟩

def M0 : List (String × List Row) := [("90001", [rowA])]

/-- Counterexample to C6 as stated: for the boundary feature `F0` a zip
key IS found (`_find_zip_property` returns the first key whose string
value fully matches five digits, here the key named `""`), yet
`build_choropleth_geojson` still raises its fatal error — refuting the
claimed "if and only if no such key is found". -/
theorem zip_key_detection_cex :
    find_zip_property F0 = some "" ∧
    build_choropleth_geojson M0 [F0] = Except.error [""] := by
  constructor <;> rfl

/-- Claim C6 (amended): `_find_zip_property` selects the first key whose
string value fully matches a 5-digit pattern, trying the prioritized
candidate list before scanning all keys, so it succeeds for any feature
bearing such a key under any key name; but because Python treats the
empty string as falsy, `build_choropleth_geojson` raises its fatal
error (emitting no joined feature) if and only if, for each of the
first five boundary features, the detected key is either absent or the
empty string. -/
theorem zip_key_detection (feat : BFeature) (by_zip : List (String × List Row))
    (boundaries : List BFeature) :
    ((∃ kv ∈ feat.properties, pvalIsZip kv.2 = true) →
      (find_zip_property feat).isSome = true)
    ∧ (∀ k, find_zip_property feat = some k →
        ∃ v, (k, PVal.pstr v) ∈ feat.properties ∧ fullmatchZip v = true)
    ∧ ((∃ key ∈ ZIP_KEY_CANDIDATES,
          (pget feat.properties key).any pvalIsZip = true) →
        ∃ k, find_zip_property feat = some k ∧ k ∈ ZIP_KEY_CANDIDATES)
    ∧ ((∃ e, build_choropleth_geojson by_zip boundaries = .error e) ↔
        ∀ f ∈ boundaries.take 5,
          find_zip_property f = none ∨ find_zip_property f = some "") := by
  refine ⟨?_, ?_, ?_, ?_⟩
  · intro ⟨kv, hmem, hz⟩
    simp only [find_zip_property]
    cases hc : ZIP_KEY_CANDIDATES.find? (fun key =>
        match pget feat.properties key with
        | some v => pvalIsZip v
        | none => false) with
    | some key => rfl
    | none =>
      have hs : (feat.properties.find? (fun kv => pvalIsZip kv.2)).isSome = true := by
        rw [List.find?_isSome]
        exact ⟨kv, hmem, hz⟩
      cases hf2 : feat.properties.find? (fun kv => pvalIsZip kv.2) with
      | none => rw [hf2] at hs; simp at hs
      | some kv0 => rfl
  · intro k hk
    simp only [find_zip_property] at hk
    cases hc : ZIP_KEY_CANDIDATES.find? (fun key =>
        match pget feat.properties key with
        | some v => pvalIsZip v
        | none => false) with
    | some key =>
      rw [hc] at hk
      injection hk with hk
      subst hk
      have hp := List.find?_some hc
      cases hg : pget feat.properties key with
      | none => rw [hg] at hp; simp at hp
      | some v =>
        rw [hg] at hp
        unfold pget at hg
        cases hfind : feat.properties.find? (fun kv => kv.1 == key) with
        | none => rw [hfind] at hg; simp at hg
        | some kv0 =>
          rw [hfind] at hg
          simp only [Option.map] at hg
          injection hg with hg
          obtain ⟨k1, v1⟩ := kv0
          have hmem := List.mem_of_find?_eq_some hfind
          have hbeq := List.find?_some hfind
          have hkeq : k1 = key := by simpa using hbeq
          subst hkeq
          cases v1 with
          | pstr s =>
            refine ⟨s, ?_, ?_⟩
            · exact hmem
            · have : v = PVal.pstr s := by simpa using hg.symm
              rw [this] at hp
              simpa [pvalIsZip] using hp
          | pother r =>
            have : v = PVal.pother r := by simpa using hg.symm
            rw [this] at hp
            simp [pvalIsZip] at hp
    | none =>
      rw [hc] at hk
      cases hfind : feat.properties.find? (fun kv => pvalIsZip kv.2) with
      | none => rw [hfind] at hk; simp at hk
      | some kv0 =>
        rw [hfind] at hk
        simp only [Option.map] at hk
        injection hk with hk
        obtain ⟨k1, v1⟩ := kv0
        have hmem := List.mem_of_find?_eq_some hfind
        have hz := List.find?_some hfind
        cases v1 with
        | pstr s =>
          simp only at hk
          subst hk
          exact ⟨s, hmem, by simpa [pvalIsZip] using hz⟩
        | pother r => simp [pvalIsZip] at hz
  · intro ⟨key, hkey, hany⟩
    simp only [find_zip_property]
    have hsome : (ZIP_KEY_CANDIDATES.find? (fun key =>
        match pget feat.properties key with
        | some v => pvalIsZip v
        | none => false)).isSome = true := by
      rw [List.find?_isSome]
      refine ⟨key, hkey, ?_⟩
      cases hg : pget feat.properties key with
      | none => rw [hg] at hany; simp [Option.any] at hany
      | some v => rw [hg] at hany; simpa [Option.any] using hany
    cases hc : ZIP_KEY_CANDIDATES.find? (fun key =>
        match pget feat.properties key with
        | some v => pvalIsZip v
        | none => false) with
    | none => rw [hc] at hsome; simp at hsome
    | some k => exact ⟨k, rfl, List.mem_of_find?_eq_some hc⟩
  · rw [build_error_iff]
    unfold detectZipKey
    exact detectLoop_eq_none_iff (boundaries.take 5)

/-- A boundary feature with an unconventionally named zip key. -/
def Funconv : BFeature := ⟨"gu", [("my_postal_field", PVal.pstr "90210")]⟩

/-- Witness for C6 (amended): key auto-detection succeeds on a feature
whose zip-bearing key has an unconventional name. -/
theorem zip_key_detection_witness :
    (find_zip_property Funconv).isSome = true :=
  (zip_key_detection Funconv [] []).1 (by decide)

/-! ## Claim C9 -/

/-- An aggregation with a single record in one bucket. -/
def Mdup : List (String × List Row) := [("90001", [rowB])]

/-- Two distinct boundary features resolving to the same zip 90001. -/
def Bdup : List BFeature :=
  [⟨"gA", [("ZIP", PVal.pstr "90001")]⟩, ⟨"gC", [("ZIP", PVal.pstr "90001")]⟩]

/-- Claim C9: the join emits one feature per boundary feature — each
carrying the full bucket count and summary list — so two boundary
features with the same resolved zip both appear in the output, output
zipcodes need not be distinct, and `generate_html`'s total-mapped
statistic (the sum of per-feature counts) can exceed the number of
aggregated records, as at the concrete input `Mdup`/`Bdup` where one
record yields a total of 2. -/
theorem duplicate_boundary_zip_features :
    (∀ (m : List (String × List Row)) (B : List BFeature) (k : String),
      detectZipKey B = some k →
        ∃ out, build_choropleth_geojson m B = .ok out ∧
          out.length = B.countP
            (fun f => (lookupZip m (resolveZip f k)).isSome) ∧
          ∀ f ∈ out, ∃ opps, lookupZip m f.zipcode = some opps ∧
            f.count = opps.length ∧ f.opportunities = opps.map summarize)
    ∧ (∃ out, build_choropleth_geojson Mdup Bdup = .ok out ∧
        out.map (fun f => f.zipcode) = ["90001", "90001"] ∧
        (generate_html_stats out []).total_mapped = 2 ∧
        (bucketRows Mdup).length = 1) := by
  constructor
  · intro m B k hdet
    refine ⟨B.filterMap (joinFeature m k), build_ok m B k hdet, ?_, ?_⟩
    · have hpt : (fun a => (joinFeature m k a).isSome) =
          (fun f => (lookupZip m (resolveZip f k)).isSome) := by
        funext f
        rw [joinFeature_eq]
        cases lookupZip m (resolveZip f k) <;> rfl
      rw [length_filterMap_countP (joinFeature m k) B, hpt]
    · intro f hf
      obtain ⟨b, _, opps, hl, hfeq⟩ := mem_join_out m k B f hf
      subst hfeq
      exact ⟨opps, hl, rfl, rfl⟩
  · exact ⟨[⟨"gA", "90001", 1, [summarize rowB]⟩,
      ⟨"gC", "90001", 1, [summarize rowB]⟩], by rfl, by rfl, by rfl, by rfl⟩

/-- Witness for C9 at the concrete duplicate-zip input: applying the
general per-feature emission statement to `Mdup`/`Bdup`. -/
theorem duplicate_boundary_zip_features_witness :
    ∃ out, build_choropleth_geojson Mdup Bdup = .ok out ∧
      out.length = Bdup.countP
        (fun f => (lookupZip Mdup (resolveZip f "ZIP")).isSome) ∧
      ∀ f ∈ out, ∃ opps, lookupZip Mdup f.zipcode = some opps ∧
        f.count = opps.length ∧ f.opportunities = opps.map summarize :=
  duplicate_boundary_zip_features.1 Mdup Bdup "ZIP" (by decide)

/-! ## Lemmas: `max(..., default=1)` -/

theorem foldl_max_mem (xs : List Nat) (a : Nat) :
    xs.foldl max a = a ∨ xs.foldl max a ∈ xs := by
  induction xs generalizing a with
  | nil => exact Or.inl rfl
  | cons x xs ih =>
    rw [List.foldl_cons]
    rcases ih (max a x) with h | h
    · rcases max_choice a x with hm | hm
      · exact Or.inl (by rw [h, hm])
      · refine Or.inr ?_
        rw [h, hm]
        exact List.mem_cons_self _ _
    · exact Or.inr (List.mem_cons_of_mem _ h)

theorem le_foldl_max (xs : List Nat) (a : Nat) :
    a ≤ xs.foldl max a ∧ ∀ y ∈ xs, y ≤ xs.foldl max a := by
  induction xs generalizing a with
  | nil => exact ⟨Nat.le_refl a, by simp⟩
  | cons x xs ih =>
    obtain ⟨h1, h2⟩ := ih (max a x)
    rw [List.foldl_cons]
    refine ⟨le_trans (le_max_left a x) h1, ?_⟩
    intro y hy
    rcases List.mem_cons.mp hy with rfl | hy'
    · exact le_trans (le_max_right a y) h1
    · exact h2 y hy'

/-! ## Claim C8 -/

/-- Claim C8: `generate_html` computes the maximum per-feature count
(`max(..., default=1)`); on an empty feature list it is exactly 1 — not
0 and, the function being total, not an error — and on a non-empty list
it is a genuine maximum of the per-feature counts. -/
theorem generate_html_max_count (virtual_opps : List Row)
    (features : List OutFeature) :
    (generate_html_stats [] virtual_opps).max_count = 1
    ∧ (features ≠ [] →
        (generate_html_stats features virtual_opps).max_count
            ∈ features.map (fun f => f.count)
        ∧ ∀ f ∈ features,
            f.count ≤ (generate_html_stats features virtual_opps).max_count) := by
  refine ⟨rfl, ?_⟩
  intro hne
  cases features with
  | nil => exact absurd rfl hne
  | cons f0 fs =>
    have hmc : (generate_html_stats (f0 :: fs) virtual_opps).max_count
        = (fs.map (fun f => f.count)).foldl max f0.count := rfl
    constructor
    · rw [hmc, List.map_cons]
      rcases foldl_max_mem (fs.map (fun f => f.count)) f0.count with h | h
      · rw [h]
        exact List.mem_cons_self _ _
      · exact List.mem_cons_of_mem _ h
    · intro f hf
      rw [hmc]
      rcases List.mem_cons.mp hf with rfl | hf'
      · exact (le_foldl_max _ _).1
      · exact (le_foldl_max _ _).2 f.count (List.mem_map_of_mem _ hf')

/-- Witness for C8: the empty-feature default is 1, and at a singleton
list the max-count is one of the counts. -/
theorem generate_html_max_count_witness :
    (generate_html_stats [] []).max_count = 1
    ∧ (generate_html_stats [⟨"g", "90001", 3, []⟩] []).max_count
        ∈ [(⟨"g", "90001", 3, []⟩ : OutFeature)].map (fun f => f.count) :=
  ⟨(generate_html_max_count [] []).1,
    ((generate_html_max_count [] [⟨"g", "90001", 3, []⟩]).2 (by decide)).1⟩

/-! ## Claim C4 -/

theorem loadLoop_bound (obs : Nat → IterObs) :
    ∀ (fuel clicks : Nat),
      (loadLoop obs clicks fuel).1 ≤ clicks + fuel ∧
      ((loadLoop obs clicks fuel).2 = ExitState.capReached →
        (loadLoop obs clicks fuel).1 = clicks + fuel) := by
  intro fuel
  induction fuel with
  | zero => intro clicks; exact ⟨Nat.le_refl _, fun _ => rfl⟩
  | succ n ih =>
    intro clicks
    simp only [loadLoop]
    cases h1 : (obs clicks).buttonVisible with
    | false =>
      simp only [h1, Bool.not_false, if_true]
      exact ⟨Nat.le_add_right _ _, fun h => ExitState.noConfusion h⟩
    | true =>
      simp only [h1, Bool.not_true, Bool.false_eq_true, if_false]
      cases h2 : (obs clicks).growth with
      | false =>
        simp only [h2, Bool.not_false, if_true]
        exact ⟨by omega, fun h => ExitState.noConfusion h⟩
      | true =>
        simp only [h2, Bool.not_true, Bool.false_eq_true, if_false]
        obtain ⟨ha, hb⟩ := ih (clicks + 1)
        exact ⟨by omega, fun h => by rw [hb h]; omega⟩

/-- Claim C4: `_load_all_results` performs at most
`MAX_LOAD_MORE_CLICKS` expansion attempts for every behavior of the
load-more control and the row count, reaches exactly the cap when it
exits through it, and every exit is one of the non-error terminal
states (control absent/not visible, no growth within the wait bound,
or cap reached). -/
theorem load_more_clicks_bounded (obs : Nat → IterObs) :
    (load_all_results obs).1 ≤ MAX_LOAD_MORE_CLICKS
    ∧ ((load_all_results obs).2 = ExitState.capReached →
        (load_all_results obs).1 = MAX_LOAD_MORE_CLICKS)
    ∧ ((load_all_results obs).2 = ExitState.fullyLoaded ∨
        (load_all_results obs).2 = ExitState.noGrowth ∨
        (load_all_results obs).2 = ExitState.capReached) := by
  obtain ⟨h1, h2⟩ := loadLoop_bound obs MAX_LOAD_MORE_CLICKS 0
  refine ⟨by simpa using h1, fun h => by simpa using h2 h, ?_⟩
  cases h : (load_all_results obs).2 <;> simp

/-- Witness for C4: a control that always stays visible and always
grows drives the loop to exactly the cap of 20 clicks. -/
theorem load_more_clicks_bounded_witness :
    (load_all_results (fun _ => ⟨true, true⟩)).1 = MAX_LOAD_MORE_CLICKS :=
  (load_more_clicks_bounded (fun _ => ⟨true, true⟩)).2.1 (by rfl)

/-! ## Lemmas: evaluation of `_extract_row` -/

/-- Membership of the classified opportunity type in the four-element
enumeration, for any class attribute. -/
theorem classifyType_mem (s : String) :
    classifyType s ∈
      ["Volunteer Opportunity", "Special Event", "Already Filled", "Training"] := by
  unfold classifyType
  cases hf : OPP_TYPE_CLASSES.find? (fun p => pyContains s p.1) with
  | none => simp
  | some p =>
    have hmem := List.mem_of_find?_eq_some hf
    simp only [OPP_TYPE_CLASSES, List.mem_cons, List.not_mem_nil, or_false] at hmem
    rcases hmem with rfl | rfl | rfl | rfl <;> simp

/-- Closed form of a successful `_extract_row`. -/
theorem extract_row_eq (r : RowDom) (a b : Anchor)
    (ha : r.opp_link = some a) (hb : r.org_link = some b) :
    extract_row r = some
      { title := pyStrip a.text
        organization := pyStrip b.text
        location := pyStrip r.where_text
        date := if pyFalsyStr (r.time_cell.date_el.map pyStrip) then
            (if pyContains (pyLower (pyStrip r.time_cell.raw)) "ongoing" then
              some "Ongoing"
            else r.time_cell.date_el.map pyStrip)
          else r.time_cell.date_el.map pyStrip
        time := r.time_cell.time_el.map pyStrip
        duration := r.time_cell.dur_el.map pyStrip
        datetime_iso := r.time_cell.data_order
        distance := pyStrip r.dist_text
        opportunity_type := classifyType (a.cls.getD "")
        opportunity_url := resolveHref a.href
        opportunity_id := extract_id_from_href a.href
        organization_url := resolveHref b.href } := by
  simp only [extract_row, ha, hb]

theorem resolveHref_eq (h : String) :
    resolveHref (some h) =
      some (if pyStartsWith h "/" then BASE_URL ++ h else h) := by
  unfold resolveHref
  by_cases hh : h = ""
  · subst hh
    rfl
  · simp [hh]

theorem pyStartsWith_resolved (h : String) :
    pyStartsWith (if pyStartsWith h "/" then BASE_URL ++ h else h) "/" = false := by
  by_cases hs : pyStartsWith h "/" = true
  · rw [if_pos hs]
    unfold pyStartsWith
    rw [String.data_append]
    rfl
  · rw [if_neg hs]
    simpa using hs

/-! ## Claim C3 (corrected) -/

/-- A row whose title anchor is present but carries empty inner text:
the code raises nothing and emits a record with an empty title. -/
def rowEmptyTitle : RowDom :=
  ⟨some ⟨"", some "/opportunity/a0C1", some "blue-key"⟩,
    some ⟨"Some Org", some "/org/1", none⟩,
    "Los Angeles, CA 90001", ⟨none, none, none, none, "Ongoing"⟩, "2 miles"⟩

/-- Counterexample to C3 as stated: `_extract_row` succeeds on
`rowEmptyTitle` and the resulting record's title is the empty string —
extraction does not fail when a non-empty title cannot be read. -/
theorem extract_row_nonempty_cex :
    (extract_row rowEmptyTitle).map (fun o => o.title) = some "" := by rfl

/-- Claim C3 (amended): extraction of a row succeeds exactly when both
required anchors (title and organization) are present; on success the
record's title and organization are the anchors' trimmed inner texts —
hence non-empty whenever those texts contain a non-whitespace character,
but an anchor present with empty or whitespace-only text yields an empty
field — and the opportunity type is one of the four enumerated values. -/
theorem extract_row_title_org (r : RowDom) :
    ((extract_row r).isSome = true ↔
      (r.opp_link.isSome = true ∧ r.org_link.isSome = true))
    ∧ ∀ o, extract_row r = some o →
        ∃ a b, r.opp_link = some a ∧ r.org_link = some b ∧
          o.title = pyStrip a.text ∧ o.organization = pyStrip b.text ∧
          o.opportunity_type ∈
            ["Volunteer Opportunity", "Special Event", "Already Filled",
              "Training"] := by
  cases ha : r.opp_link with
  | none =>
    constructor
    · simp [extract_row, ha]
    · intro o ho
      simp only [extract_row, ha] at ho
      exact Option.noConfusion ho
  | some a =>
    cases hb : r.org_link with
    | none =>
      constructor
      · simp [extract_row, ha, hb]
      · intro o ho
        simp only [extract_row, ha, hb] at ho
        exact Option.noConfusion ho
    | some b =>
      constructor
      · simp [extract_row_eq r a b ha hb, ha, hb]
      · intro o ho
        rw [extract_row_eq r a b ha hb] at ho
        injection ho with ho
        subst ho
        exact ⟨a, b, rfl, rfl, rfl, rfl, classifyType_mem _⟩

/-- A well-formed row for the C3 witness. -/
def rowGood : RowDom :=
  ⟨some ⟨" Beach Cleanup ", some "/opportunity/a0C123", some "blue-key more"⟩,
    some ⟨"Heal the Bay", some "https://healthebay.org", none⟩,
    "Santa Monica, CA 90401",
    ⟨some "2026-01-01T09:00", some "Jan 1", some "9 AM", some "3h", "Jan 1"⟩,
    "5 miles"⟩

/-- Witness for C3 (amended): extraction succeeds on a row with both
anchors present. -/
theorem extract_row_title_org_witness :
    (extract_row rowGood).isSome = true :=
  (extract_row_title_org rowGood).1.mpr (by decide)

/-! ## Claim C5 -/

/-- Claim C5: when no date sub-element is found in the time cell,
extraction still succeeds, the record's date is exactly `"Ongoing"` iff
the cell's raw text contains "ongoing" case-insensitively (and stays
absent otherwise), and this outcome is unchanged under any values of
the time and duration sub-elements. -/
theorem ongoing_sentinel (r : RowDom) (a b : Anchor)
    (ha : r.opp_link = some a) (hb : r.org_link = some b)
    (hdate : r.time_cell.date_el = none) :
    ∃ o, extract_row r = some o ∧
      o.date = (if pyContains (pyLower (pyStrip r.time_cell.raw)) "ongoing"
        then some "Ongoing" else none) ∧
      ∀ te de, ∃ o2,
        extract_row
          { r with time_cell :=
              { r.time_cell with time_el := te, dur_el := de } } = some o2 ∧
        o2.date = o.date := by
  refine ⟨_, extract_row_eq r a b ha hb, ?_, ?_⟩
  · simp [hdate, pyFalsyStr]
  · intro te de
    refine ⟨_, extract_row_eq _ a b ha hb, ?_⟩
    simp [hdate, pyFalsyStr]

/-- A row whose time cell has no sub-elements but mixed-case "OnGoing"
raw text. -/
def rowOngoing : RowDom :=
  ⟨some ⟨"Title", none, none⟩, some ⟨"Org", none, none⟩, "loc",
    ⟨none, none, none, none, "  OnGoing event "⟩, "1 mile"⟩

/-- Witness for C5: the mixed-case raw text yields exactly `"Ongoing"`. -/
theorem ongoing_sentinel_witness :
    ∃ o, extract_row rowOngoing = some o ∧ o.date = some "Ongoing" := by
  obtain ⟨o, h1, h2, -⟩ :=
    ongoing_sentinel rowOngoing ⟨"Title", none, none⟩ ⟨"Org", none, none⟩
      rfl rfl rfl
  exact ⟨o, h1, by rw [h2]; decide⟩

/-! ## Claim C7 (corrected) -/

/-- A row whose title anchor's href is relative without a leading
slash. -/
def rowRelHref : RowDom :=
  ⟨some ⟨"Event", some "foo.html", none⟩, some ⟨"Org", none, none⟩, "loc",
    ⟨none, none, none, none, ""⟩, ""⟩

/-- Counterexample to C7 as stated: the stored opportunity URL for
`rowRelHref` is present and equals `"foo.html"`, which carries no
scheme and hence is not an absolute URL. -/
theorem url_absolute_cex :
    (extract_row rowRelHref).map (fun o => o.opportunity_url) =
      some (some "foo.html")
    ∧ isAbsoluteUrl_spec "foo.html" = false := by
  constructor <;> rfl

/-- Claim C7 (amended): on every successfully extracted record, a
root-relative href (starting with `/`) is resolved against the base
origin and any other href is stored as-is unmodified; consequently a
stored URL never starts with `/`, though an href that is relative
without a leading slash is stored unmodified and need not be
absolute. -/
theorem url_resolution (r : RowDom) (o : Opportunity)
    (h : extract_row r = some o) :
    (∃ a, r.opp_link = some a ∧ o.opportunity_url = resolveHref a.href ∧
      ∀ hr, a.href = some hr → o.opportunity_url =
        some (if pyStartsWith hr "/" then BASE_URL ++ hr else hr))
    ∧ (∃ b, r.org_link = some b ∧ o.organization_url = resolveHref b.href ∧
      ∀ hr, b.href = some hr → o.organization_url =
        some (if pyStartsWith hr "/" then BASE_URL ++ hr else hr))
    ∧ (∀ u, o.opportunity_url = some u → pyStartsWith u "/" = false)
    ∧ (∀ u, o.organization_url = some u → pyStartsWith u "/" = false) := by
  cases ha : r.opp_link with
  | none =>
    simp only [extract_row, ha] at h
    exact Option.noConfusion h
  | some a =>
    cases hb : r.org_link with
    | none =>
      simp only [extract_row, ha, hb] at h
      exact Option.noConfusion h
    | some b =>
      rw [extract_row_eq r a b ha hb] at h
      injection h with h
      subst h
      refine ⟨⟨a, rfl, rfl, ?_⟩, ⟨b, rfl, rfl, ?_⟩, ?_, ?_⟩
      · intro hr hhr
        rw [hhr, resolveHref_eq]
      · intro hr hhr
        rw [hhr, resolveHref_eq]
      · intro u hu
        cases hah : a.href with
        | none => rw [hah] at hu; simp [resolveHref] at hu
        | some hrf =>
          rw [hah, resolveHref_eq] at hu
          injection hu with hu
          subst hu
          exact pyStartsWith_resolved hrf
      · intro u hu
        cases hbh : b.href with
        | none => rw [hbh] at hu; simp [resolveHref] at hu
        | some hrf =>
          rw [hbh, resolveHref_eq] at hu
          injection hu with hu
          subst hu
          exact pyStartsWith_resolved hrf

/-- A row whose anchors carry a root-relative and an external href. -/
def rowRootHref : RowDom :=
  ⟨some ⟨"Event", some "/opportunity/a0C9", some "blue-key"⟩,
    some ⟨"Org", some "/org/2", none⟩, "loc",
    ⟨none, none, none, none, ""⟩, ""⟩

/-- The record `_extract_row` produces for `rowRootHref`. -/
def oRoot : Opportunity :=
  ⟨"Event", "Org", "loc", none, none, none, none, "",
    "Volunteer Opportunity", some "https://volunteer.laworks.com/opportunity/a0C9",
    some "a0C9", some "https://volunteer.laworks.com/org/2"⟩

/-- Witness for C7 (amended): the resolved opportunity URL of
`rowRootHref` does not start with a slash. -/
theorem url_resolution_witness :
    pyStartsWith "https://volunteer.laworks.com/opportunity/a0C9" "/" = false :=
  (url_resolution rowRootHref oRoot (by decide)).2.2.1
    "https://volunteer.laworks.com/opportunity/a0C9" (by decide)

end LaVol
